import Mathlib

/-!
# A shallow embedding of `cache.go` from `tiny-http-repo-proxy`

This file models the caching layer of the proxy (the single source file
`src/cache.go`) and proves properties about it.  Pure Go functions become
Lean functions; the mutable cache (`knownValues`, `busyValues`) and the
filesystem become explicit state records that every operation threads
through.  Machine integers (`int64` lengths, `time.Time`, `time.Duration`)
are modelled as `Int`; byte slices as `List Nat` with `Option` capturing
the Go distinction between a `nil` slice and a present one.

External collaborators (the `crypto/sha256` digest, the `regexp` engine,
the `GetRemote` fetcher, and fault injection for file writes) are
parameters collected in `Ext`; the cache logic itself is translated
line by line from the source.
-/

set_option autoImplicit false

namespace TinyProxy

/-- Byte sequences (`[]byte` contents). -/
abbrev Bytes := List Nat

/-- The errors the cache can return (Go `error` values distinguished by
provenance): the `fmt.Errorf` "not known to cache" error from `get`, an
`os.Open`/`os.Stat` failure on a missing file, an injected I/O failure,
and a failed remote fetch. -/
inductive GoError where
  | notKnown (hashValue : String)
  | fileNotFound (path : String)
  | ioError (msg : String)
  | fetchFailed (msg : String)
deriving DecidableEq, Repr

/-- Result of a Go computation that may `panic` (e.g. `regexp.MustCompile`). -/
inductive PanicOr (α : Type) where
  | panicked (msg : String)
  | ret (a : α)
deriving DecidableEq, Repr

/-- A file in the cache folder: its byte content and its modification time
(`time.Time` modelled as `Int`). -/
structure FileData where
  content : Bytes
  mtime : Int
deriving DecidableEq, Repr

/-- `KnownValues` from `cache.go` (line 28): the in-memory entry.  Go's
`content []byte` field may be `nil` (disk-only tier), hence `Option`. -/
structure KnownValues where
  loadedAt : Int
  content : Option Bytes
deriving DecidableEq, Repr

/-- The Go zero value `KnownValues{}` (returned by a failed map lookup). -/
def KnownValues.zero : KnownValues := { loadedAt := 0, content := none }

/-- A TTL rule from the configuration: `{name, regex, ttl}`. -/
structure CacheRule where
  name : String
  regex : String
  ttl : Int
deriving DecidableEq, Repr

/-- The slice of the global `config` that `cache.go` reads:
`MaxCacheItemSize` (in MB), `DefaultCacheTTL` and the TTL rules.
The rules are kept as an ordered list (the spec describes the
configuration as an ordered rule list; the config structure itself lives
outside `src/cache.go`). -/
structure Config where
  maxCacheItemSize : Int
  defaultCacheTTL : Int
  cacheRules : List CacheRule

/-- The world outside the cache struct: the files of the cache folder
(path ↦ data), the current clock, and the Prometheus event sinks
(`promCounters` increments and `promSummaries` observations, most recent
first). -/
structure World where
  files : List (String × FileData)
  now : Int
  counters : List String
  summaries : List (String × Nat)
deriving DecidableEq, Repr

/-- The mutable fields of the `Cache` struct (line 20): the folder, the
known-set and the busy-set.  In this sequential model a busy marker is
just the registered key; the mutex-level behaviour of the markers is
studied separately in the concurrency models below. -/
structure Cache where
  folder : String
  knownValues : List (String × KnownValues)
  busyValues : List String
deriving DecidableEq, Repr

/-- External collaborators and fault injection: the (abstracted,
deterministic) `sha256` hex digest, the `regexp` compiler (`none` =
syntactically invalid pattern, on which `MustCompile` panics), the
`GetRemote` fetcher (new file content or an error), and which paths make
`ioutil.WriteFile` / `os.Create` fail. -/
structure Ext where
  calcHash : String → String
  compile : String → Option (String → Bool)
  getRemote : String → Except String Bytes
  writeFileFails : String → Bool
  createFails : String → Bool

/-! ## Association-list primitives for the Go maps and the filesystem -/

/-- Go map lookup `m[k]`. -/
def alookup {α : Type} (k : String) : List (String × α) → Option α
  | [] => none
  | p :: rest => if p.1 = k then some p.2 else alookup k rest

/-- Go map assignment `m[k] = v` (overwrites any previous binding). -/
def aset {α : Type} (l : List (String × α)) (k : String) (v : α) :
    List (String × α) :=
  (k, v) :: l.filter (fun p => p.1 ≠ k)

/-- Go `delete(m, k)`. -/
def aerase {α : Type} (l : List (String × α)) (k : String) :
    List (String × α) :=
  l.filter (fun p => p.1 ≠ k)

/-- Write a file: replaces content and stamps the current time as mtime. -/
def World.writeFile (w : World) (path : String) (content : Bytes) : World :=
  { w with files := aset w.files path { content := content, mtime := w.now } }

/-- `promCounters[name].Inc()`. -/
def World.incr (w : World) (name : String) : World :=
  { w with counters := name :: w.counters }

/-- `promSummaries[name].Observe(v)`. -/
def World.observe (w : World) (name : String) (v : Nat) : World :=
  { w with summaries := (name, v) :: w.summaries }

/-! ## Helpers translated from the Go standard library -/

/-- `bytes.Buffer.Bytes()` after `io.Copy` of `b` into a fresh buffer:
the Go buffer returns a `nil` slice when nothing was written. -/
def bufferBytes (b : Bytes) : Option Bytes :=
  if b = [] then none else some b

/-- `len` of a possibly-nil Go slice. -/
def contentLen : Option Bytes → Nat
  | none => 0
  | some l => l.length

/-- One `Write(p)` call on a `bufio.Writer` with the default 4096-byte
buffer currently holding `buf`: returns the new buffer contents and the
bytes flushed to the underlying file.  Mirrors `bufio.Writer.Write`:
data fitting the remaining space is buffered; a large write with an
empty buffer bypasses the buffer; otherwise the buffer is topped up,
flushed, and the remainder handled with an empty buffer. -/
def bufioWrite (buf p : Bytes) : Bytes × Bytes :=
  if p.length ≤ 4096 - buf.length then (buf ++ p, [])
  else if buf.length = 0 then ([], p)
  else
    let k := 4096 - buf.length
    let rest := p.drop k
    if rest.length ≤ 4096 then (rest, buf ++ p.take k)
    else ([], (buf ++ p.take k) ++ rest)

/-- `io.Copy(writer, reader)` where `writer` is the `bufio.Writer` above:
the reader is consumed in 32768-byte chunks (the `io.Copy` buffer size),
each fed to `bufioWrite`.  Returns the final (unflushed) buffer and the
bytes that actually reached the file.  The first argument is a fuel
bound on the number of chunks; every call supplies at least
`p.length`, which suffices since each round consumes at least one
byte of `p`. -/
def copyChunks : Nat → Bytes → Bytes → Bytes → Bytes × Bytes
  | 0, buf, out, _ => (buf, out)
  | fuel + 1, buf, out, p =>
    match p with
    | [] => (buf, out)
    | _ :: _ =>
      let c := p.take 32768
      let step := bufioWrite buf c
      copyChunks fuel step.1 (out ++ step.2) (p.drop 32768)

/-- The bytes that reach the backing file when `put` streams `p` through
its `bufio.Writer`: the writer is never flushed (no `Flush`/`Close` in
`put`), so whatever remains buffered is lost. -/
def bufioCopyOutput (p : Bytes) : Bytes :=
  (copyChunks p.length [] [] p).2

/-! ## Functions of the repository that live outside `src/cache.go` -/

/-- Everything after the first occurrence of `://`, or `none` when the
separator does not occur. -/
def stripSchemeChars : List Char → Option (List Char)
  | [] => none
  | c :: rest =>
    if c = ':' then
      match rest with
      | '/' :: '/' :: tail => some tail
      | _ => stripSchemeChars rest
    else stripSchemeChars rest

/-- Modelled from the spec: `removeSchemeFromURL` is repository code not
contained in `src/cache.go`; per the spec it normalizes a cache key by
stripping the transport scheme prefix (`scheme://rest ↦ rest`), and the
spec describes no failure mode, so it is total here. -/
def removeSchemeFromURL (url : String) : String :=
  match stripSchemeChars url.toList with
  | some tail => String.mk tail
  | none => url

/-! ## The cache operations, translated from `src/cache.go` -/

/-- `CreateCache` (lines 33–66).  `listing` is the `ioutil.ReadDir`
result: a directory listing of `(name, isDir)` pairs or an error.  On a
read error the code logs, attempts `os.Mkdir` (ignoring its error) and
continues with an empty listing.  Returns the cache, the returned error
value, and whether `os.Mkdir` was attempted. -/
def CreateCache (path : String)
    (listing : Except GoError (List (String × Bool))) :
    Cache × Option GoError × Bool :=
  let mkdirAttempted := match listing with
    | .error _ => true
    | .ok _ => false
  let fileInfos := match listing with
    | .error _ => []
    | .ok l => l
  let values := (fileInfos.filter (fun p => ¬p.2)).map
    (fun p => (p.1, KnownValues.zero))
  ({ folder := path, knownValues := values, busyValues := [] },
    none, mkdirAttempted)

/-- The outcome of `has` in the sequential (uncontended) model:
the caller would block on a busy marker, or finds the key known
(`nil` lock, `true`), or receives the fill permit (fresh locked marker,
`false`). -/
inductive HasResult where
  | blocked
  | alreadyCached
  | permit
deriving DecidableEq, Repr

/-- `has` (lines 73–101) in the sequential model: the two critical
sections collapse because no other thread runs.  If the key is busy the
caller would block on the marker (`blocked`); otherwise the known-set
decides between `alreadyCached` and registering a fresh busy marker and
returning it as the fill permit. -/
def hasSeq (E : Ext) (c : Cache) (key : String) : HasResult × Cache :=
  let hashValue := E.calcHash key
  if hashValue ∈ c.busyValues then (.blocked, c)
  else if (alookup hashValue c.knownValues).isSome then (.alreadyCached, c)
  else (.permit, { c with busyValues := hashValue :: c.busyValues })

/-- `release` (lines 164–169): under the cache mutex, delete the busy
marker and insert the known-set entry. -/
def release (c : Cache) (hashValue : String) (content : Option Bytes)
    (loadedAt : Int) : Cache :=
  { c with
    busyValues := c.busyValues.filter (fun k => k ≠ hashValue),
    knownValues := aset c.knownValues hashValue
      { loadedAt := loadedAt, content := content } }

/-- The TTL-selection loop of `checkCacheTTL` (lines 224–234): `ttl`
starts at the default; rules are traversed in order, each regex is
`MustCompile`d (panic on an invalid pattern), and the first match sets
the TTL and breaks. -/
def ttlLoop (compile : String → Option (String → Bool))
    (rules : List CacheRule) (dflt : Int) (cacheURL : String) :
    PanicOr Int :=
  match rules with
  | [] => .ret dflt
  | cr :: rest =>
    match compile cr.regex with
    | none => .panicked ("regexp: Compile failed on " ++ cr.regex)
    | some m =>
      if m cacheURL then .ret cr.ttl else ttlLoop compile rest dflt cacheURL

/-- The TTL selection as the spec words it (for comparison with
`ttlLoop`): the TTL of the first rule, in the caller-supplied order,
whose regex matches the key, and the default TTL when none matches. -/
def firstMatchTTL (compile : String → Option (String → Bool))
    (rules : List CacheRule) (dflt : Int) (key : String) : Int :=
  match rules.find? (fun cr => ((compile cr.regex).map (fun m => m key)).getD false) with
  | some cr => cr.ttl
  | none => dflt

/-- `checkCacheTTL` (lines 217–255).  Stats the backing file (error if
missing), selects the TTL, and if `now` is after `mtime + ttl`
increments `CACHE_TOO_OLD` and calls `GetRemote` (modelled from the
spec as overwriting the backing file on success, since `GetRemote`
lives outside `src/cache.go`), propagating its error; otherwise
increments `CACHE_OK`.  Returns the error value, the updated world, and
whether the remote fetch was invoked. -/
def checkCacheTTL (E : Ext) (cfg : Config) (w : World)
    (filePath cacheURL requestedURL : String) :
    PanicOr (Option GoError × World × Bool) :=
  match alookup filePath w.files with
  | none => .ret (some (.fileNotFound filePath), w, false)
  | some fd =>
    match ttlLoop E.compile cfg.cacheRules cfg.defaultCacheTTL cacheURL with
    | .panicked msg => .panicked msg
    | .ret ttl =>
      let validUntil := fd.mtime + ttl
      if w.now > validUntil then
        let w1 := w.incr "CACHE_TOO_OLD"
        match E.getRemote requestedURL with
        | .error msg => .ret (some (.fetchFailed msg), w1, true)
        | .ok newContent => .ret (none, w1.writeFile filePath newContent, true)
      else
        .ret (none, w.incr "CACHE_OK", false)

/-- `get` (lines 103–159).  Normalizes the URL, hashes it, looks the key
up (`KnownValue, ok := knownValues[hash]`), applies the guard
`!ok && len(content) > 0`, then serves either from the backing file
(content `nil`) or from memory, running `checkCacheTTL` first on both
paths.  The returned stream is modelled by the bytes it would yield. -/
def get (E : Ext) (cfg : Config) (c : Cache) (w : World)
    (requestedURL : String) :
    PanicOr (Except GoError Bytes × World) :=
  let cacheURL := removeSchemeFromURL requestedURL
  let hashValue := E.calcHash cacheURL
  let found := alookup hashValue c.knownValues
  let ok := found.isSome
  let content := (found.getD KnownValues.zero).content
  if ¬ok ∧ contentLen content > 0 then
    .ret (.error (.notKnown hashValue), w)
  else
    match content with
    | none =>
      match checkCacheTTL E cfg w (c.folder ++ hashValue) cacheURL requestedURL with
      | .panicked msg => .panicked msg
      | .ret (some e, w', _) => .ret (.error e, w')
      | .ret (none, w', _) =>
        match alookup (c.folder ++ hashValue) w'.files with
        | none => .ret (.error (.fileNotFound (c.folder ++ hashValue)), w')
        | some fd =>
          .ret (.ok fd.content,
            w'.observe "CACHE_READ_FILE" fd.content.length)
    | some data =>
      match checkCacheTTL E cfg w (c.folder ++ hashValue) cacheURL requestedURL with
      | .panicked msg => .panicked msg
      | .ret (some e, w', _) => .ret (.error e, w')
      | .ret (none, w', _) =>
        .ret (.ok data, w'.observe "CACHE_READ_MEMORY" data.length)

/-- `put` (lines 171–210).  `content` is what `io.Copy` obtains from the
caller's stream: the full bytes or a read error.  Small items
(`contentLength <= MaxCacheItemSize*1024*1024`) are buffered; note that
the `defer c.release(...)` is only registered after a successful copy,
and that it is registered (with the buffered bytes) before
`ioutil.WriteFile`, so a failed write still releases with the buffer.
Large items go through `os.Create` plus an unflushed `bufio.Writer`
(`bufioCopyOutput`), with the `defer c.release(hash, nil, now)`
registered before `os.Create`. -/
def put (E : Ext) (cfg : Config) (c : Cache) (w : World) (key : String)
    (content : Except GoError Bytes) (contentLength : Int) :
    Option GoError × Cache × World :=
  let hashValue := E.calcHash key
  if contentLength ≤ cfg.maxCacheItemSize * 1024 * 1024 then
    match content with
    | .error e => (some e, c, w)
    | .ok bytes =>
      if E.writeFileFails (c.folder ++ hashValue) then
        (some (.ioError "WriteFile"), release c hashValue (bufferBytes bytes) w.now, w)
      else
        (none, release c hashValue (bufferBytes bytes) w.now,
          w.writeFile (c.folder ++ hashValue) bytes)
  else
    if E.createFails (c.folder ++ hashValue) then
      (some (.ioError "Create"), release c hashValue none w.now, w)
    else
      match content with
      | .error e =>
        (some e, release c hashValue none w.now,
          w.writeFile (c.folder ++ hashValue) [])
      | .ok bytes =>
        (none, release c hashValue none w.now,
          w.writeFile (c.folder ++ hashValue) (bufioCopyOutput bytes))

/-! ## Concrete fixtures used by the claim theorems and witnesses -/

/-- A concrete external environment: an injective stand-in digest,
no TTL rules needed, a failing remote, no injected I/O faults. -/
def E0 : Ext := {
  calcHash := fun s => "#" ++ s
  compile := fun _ => none
  getRemote := fun _ => .error "no remote"
  writeFileFails := fun _ => false
  createFails := fun _ => false }

/-- Like `E0` but `ioutil.WriteFile` fails on the backing file of key
`k`. -/
def E1 : Ext := { E0 with writeFileFails := fun p => p == "/c/#k" }

/-- Like `E0` but the remote fetch succeeds with fresh content. -/
def E2 : Ext := { E0 with getRemote := fun _ => .ok [9, 9] }

/-- Configuration with a zero in-memory threshold (every non-empty item
takes the disk-only tier). -/
def cfg0 : Config :=
  { maxCacheItemSize := 0, defaultCacheTTL := 1000, cacheRules := [] }

/-- Configuration with a 1 MB in-memory threshold. -/
def cfg1 : Config :=
  { maxCacheItemSize := 1, defaultCacheTTL := 1000, cacheRules := [] }

/-- The empty initial world at time 0. -/
def w0 : World := { files := [], now := 0, counters := [], summaries := [] }

/-- A cache whose caller holds the fill permit for key `k`
(hash `#k`), as `put`'s precondition demands. -/
def c0 : Cache :=
  { folder := "/c/", knownValues := [], busyValues := ["#k"] }

/-- A completely empty cache. -/
def cEmpty : Cache :=
  { folder := "/c/", knownValues := [], busyValues := [] }

/-- A concrete regex table for the spec's first-match example: the two
anchored patterns of the example, interpreted as prefix tests. -/
def exampleCompile : String → Option (String → Bool) := fun r =>
  if r = "^/images/" then
    some (fun k => List.isPrefixOf "/images/".toList k.toList)
  else if r = "^/images/thumb" then
    some (fun k => List.isPrefixOf "/images/thumb".toList k.toList)
  else none

/-- The rule list of the spec's first-match example. -/
def exampleRules : List CacheRule :=
  [{ name := "a", regex := "^/images/", ttl := 10 },
   { name := "b", regex := "^/images/thumb", ttl := 3600 }]

/-- A world holding one cached file for key `k`, observed at a time past
its TTL. -/
def wFile : World :=
  { files := [("/c/#k", { content := [5], mtime := 0 })], now := 2000,
    counters := [], summaries := [] }

/-- A configuration whose single TTL rule has a syntactically invalid
regex. -/
def cfgBad : Config :=
  { maxCacheItemSize := 1, defaultCacheTTL := 1000,
    cacheRules := [{ name := "r", regex := "(", ttl := 5 }] }

/-- A cache that knows key `k` in the disk-only tier. -/
def cKnown : Cache :=
  { folder := "/c/", knownValues := [("#k", KnownValues.zero)],
    busyValues := [] }

/-! ## The single-flight coordinator as a transition system (multi-key)

For the invariant claims about `has`/`release` we re-express the three
critical sections of `src/cache.go` that mutate `knownValues` and
`busyValues` — all protected by the one cache mutex — as atomic steps of
a transition system.  A busy marker carries a generation number standing
for the identity of the `*sync.Mutex` object, so "at most one marker per
identifier" is a provable statement rather than a map truism. -/

/-- The coordinator state: the known identifiers, the busy markers
(identifier ↦ marker generation), and a fresh-generation counter. -/
structure Coord where
  known : List String
  busy : List (String × Nat)
  nextGen : Nat
deriving DecidableEq, Repr

/-- The atomic critical sections of `has` (lines 76–100) and `release`
(lines 164–169) acting on the known-set and the busy directory:

* `acquire`: the fast path of `has` — the identifier is neither busy nor
  known, so a fresh marker is registered (lines 97–99);
* `reacquire`: the path of `has` after waiting on a busy marker — the
  re-check under the mutex finds the identifier still unknown and
  registers a fresh marker (same lines, reached via lines 82–87; the
  code does not re-check `busyValues` here, so the step only assumes
  the identifier is not known);
* `releaseStep`: `release` — delete the marker and insert the known
  entry in one critical section. -/
inductive CoordStep : Coord → Coord → Prop where
  | acquire (s : Coord) (k : String)
      (hb : alookup k s.busy = none) (hk : k ∉ s.known) :
      CoordStep s { known := s.known,
                    busy := (k, s.nextGen) :: s.busy,
                    nextGen := s.nextGen + 1 }
  | reacquire (s : Coord) (k : String) (hk : k ∉ s.known) :
      CoordStep s { known := s.known,
                    busy := aset s.busy k s.nextGen,
                    nextGen := s.nextGen + 1 }
  | releaseStep (s : Coord) (k : String) :
      CoordStep s { known := k :: s.known,
                    busy := aerase s.busy k,
                    nextGen := s.nextGen }

/-- A coordinator state as `CreateCache` builds it: some initial
known-set scanned from disk and no busy markers. -/
def Coord.init (ks : List String) : Coord :=
  { known := ks, busy := [], nextGen := 0 }

/-- Reachability under coordinator steps. -/
def CoordReach : Coord → Coord → Prop :=
  Relation.ReflTransGen CoordStep

/-- How many busy markers a given identifier has. -/
def Coord.markerCount (s : Coord) (k : String) : Nat :=
  (s.busy.filter (fun p => p.1 = k)).length

/-- The inductive invariant of the coordinator: a busy identifier is
never in the known-set, and no identifier has two busy markers. -/
def Coord.Inv (s : Coord) : Prop :=
  (∀ k, alookup k s.busy ≠ none → k ∉ s.known) ∧
  (∀ k, s.markerCount k ≤ 1)

/-- A concrete reachable coordinator state (for the C7 witness): the
state after acquiring and then releasing identifier `b`, starting from
a cache that knew only `a`. -/
def coordWit : Coord := { known := ["b", "a"], busy := [], nextGen := 1 }

/-! ## The single-flight protocol for one identifier with N callers

For the concurrency claim about `has` we model N threads all calling
`has` on one identifier that starts neither known nor busy.  Each
caller's position in the code is a program counter; the busy marker is a
generation number plus a locked/unlocked state (`unlocked` lists the
generations whose `lock.Unlock()` has happened).  Each step is one
critical section of the code (or the blocking `lock.Lock()` of a
waiter, which can only fire once the marker's generation has been
unlocked). -/

/-- Where a caller is inside `has` (and the subsequent fill protocol):
at the start; blocked in `lock.Lock()` on marker generation `g`;
returned from `has` holding the fill permit `g`; returned from `has`
having found the identifier known; after calling `release` but before
unlocking its marker; done. -/
inductive PC where
  | start
  | waiting (g : Nat)
  | gotPermit (g : Nat)
  | sawKnown
  | released (g : Nat)
  | finished
deriving DecidableEq, Repr

/-- Global state of the single-identifier protocol: whether the
identifier is in the known-set, the registered busy marker (if any),
a fresh-generation counter, the set of unlocked marker generations,
and every caller's program counter. -/
structure SF where
  known : Bool
  busy : Option Nat
  nextGen : Nat
  unlocked : List Nat
  pcs : List PC
deriving DecidableEq, Repr

/-- The steps of the protocol.  The three `enter*` steps are the single
critical section of `has` lines 76–100 for a caller at the start (the
branch depends on the busy directory and the known-set); the `wake*`
steps are the re-check critical section of a waiter whose marker has
been unlocked (lines 84–100); `releaseStep` is `release` called by the
permit holder (from `put`); `unlockStep` is the permit holder's final
`lock.Unlock()`. -/
inductive SFStep : SF → SF → Prop where
  | enterBusy (s : SF) (i g : Nat)
      (hpc : s.pcs[i]? = some .start) (hb : s.busy = some g) :
      SFStep s { s with pcs := s.pcs.set i (.waiting g) }
  | enterKnown (s : SF) (i : Nat)
      (hpc : s.pcs[i]? = some .start) (hb : s.busy = none)
      (hk : s.known = true) :
      SFStep s { s with pcs := s.pcs.set i .sawKnown }
  | enterAcquire (s : SF) (i : Nat)
      (hpc : s.pcs[i]? = some .start) (hb : s.busy = none)
      (hk : s.known = false) :
      SFStep s { s with busy := some s.nextGen,
                        nextGen := s.nextGen + 1,
                        pcs := s.pcs.set i (.gotPermit s.nextGen) }
  | wakeKnown (s : SF) (i g : Nat)
      (hpc : s.pcs[i]? = some (.waiting g)) (hu : g ∈ s.unlocked)
      (hk : s.known = true) :
      SFStep s { s with pcs := s.pcs.set i .sawKnown }
  | wakeAcquire (s : SF) (i g : Nat)
      (hpc : s.pcs[i]? = some (.waiting g)) (hu : g ∈ s.unlocked)
      (hk : s.known = false) :
      SFStep s { s with busy := some s.nextGen,
                        nextGen := s.nextGen + 1,
                        pcs := s.pcs.set i (.gotPermit s.nextGen) }
  | releaseStep (s : SF) (i g : Nat)
      (hpc : s.pcs[i]? = some (.gotPermit g)) :
      SFStep s { s with known := true, busy := none,
                        pcs := s.pcs.set i (.released g) }
  | unlockStep (s : SF) (i g : Nat)
      (hpc : s.pcs[i]? = some (.released g)) :
      SFStep s { s with unlocked := g :: s.unlocked,
                        pcs := s.pcs.set i .finished }

/-- The initial configuration of the single-flight scenario: `n` callers
about to call `has` on an identifier that is neither known nor busy. -/
def SF.init (n : Nat) : SF :=
  { known := false, busy := none, nextGen := 0, unlocked := [],
    pcs := List.replicate n .start }

/-- Reachability under protocol steps. -/
def SFReach : SF → SF → Prop :=
  Relation.ReflTransGen SFStep

/-- The inductive invariant of the single-flight protocol.  While the
identifier is unknown, no marker has ever been unlocked and either
nobody has entered `has` yet (no marker, all callers at the start) or
the registered marker `g` is held by exactly one caller, everyone else
being at the start or blocked on that same marker `g`.  Once the
identifier is known, no marker is registered and nobody holds a fill
permit. -/
def SF.Inv (s : SF) : Prop :=
  (s.known = false →
    s.unlocked = [] ∧
    ((s.busy = none ∧ ∀ pc ∈ s.pcs, pc = PC.start) ∨
     (∃ g : Nat, s.busy = some g ∧
       (∃ i : Nat, s.pcs[i]? = some (PC.gotPermit g) ∧
         ∀ (j g' : Nat), s.pcs[j]? = some (PC.gotPermit g') → j = i) ∧
       ∀ pc ∈ s.pcs,
         pc = PC.start ∨ pc = PC.waiting g ∨ pc = PC.gotPermit g))) ∧
  (s.known = true →
    s.busy = none ∧ ∀ pc ∈ s.pcs, ∀ g : Nat, pc ≠ PC.gotPermit g)

/-- The state after the first of two callers acquires the fill permit
(for the C8 witness). -/
def sfMid : SF :=
  { known := false, busy := some 0, nextGen := 1, unlocked := [],
    pcs := [PC.gotPermit 0, PC.start] }

/-- The state after the second caller then blocks on the first caller's
marker (for the C8 witness). -/
def sfWit : SF :=
  { known := false, busy := some 0, nextGen := 1, unlocked := [],
    pcs := [PC.gotPermit 0, PC.waiting 0] }

/-! ## Claim theorems -/

/-- C1: the round-trip `put(k, b, len b)` then `get k` does **not**
return the original bytes on the disk-only tier: with a 0 MB threshold,
putting the three bytes `[1,2,3]` under key `k` succeeds (`put` returns
`nil`), yet `get k` serves the empty backing file, because `put` never
flushes its `bufio.Writer`, so the buffered tail of the content never
reaches the file. -/
theorem C1_disk_tier_round_trip_fails :
    (put E0 cfg0 c0 w0 "k" (.ok [1, 2, 3]) 3).1 = none ∧
    get E0 cfg0 (put E0 cfg0 c0 w0 "k" (.ok [1, 2, 3]) 3).2.1
        (put E0 cfg0 c0 w0 "k" (.ok [1, 2, 3]) 3).2.2 "k" =
      .ret (.ok [],
        { files := [("/c/#k", { content := [], mtime := 0 })], now := 0,
          counters := ["CACHE_OK"],
          summaries := [("CACHE_READ_FILE", 0)] }) ∧
    ([] : Bytes) ≠ [1, 2, 3] :=
  ⟨rfl, rfl, by decide⟩

/-- C2: `get` on an identifier that is not in the known-set does **not**
return the typed "not known to cache" error: the guard
`!ok && len(content) > 0` can never hold when `ok` is false (the zero
value has a `nil` content), so the code falls through to the disk path
and returns the `os.Stat` failure on the missing backing file. -/
theorem C2_unknown_key_is_not_notfound :
    get E0 cfg0 cEmpty w0 "u" =
      .ret (.error (.fileNotFound "/c/#u"), w0) :=
  rfl

/-- C3: when reading the input stream fails on the memory-tier path of
`put`, the release operation is **not** invoked: the `defer c.release`
is only registered after a successful `io.Copy`, so the error return
leaves the cache (including the busy marker for the key) untouched. -/
theorem C3_copy_error_skips_release :
    put E0 cfg1 c0 w0 "k" (.error (.ioError "stream")) 3 =
      (some (.ioError "stream"), c0, w0) ∧
    c0.busyValues = ["#k"] :=
  ⟨rfl, rfl⟩

/-- C4: when the memory-tier file write of `put` fails, the error is
returned but the deferred release has already been registered with the
buffered content, so the known-set **does** record an in-memory entry
despite the missing file, and a subsequent `has` on the same key
observes `alreadyCached = true`. -/
theorem C4_failed_write_still_records_entry :
    put E1 cfg1 c0 w0 "k" (.ok [7]) 1 =
      (some (.ioError "WriteFile"),
        { folder := "/c/",
          knownValues := [("#k", { loadedAt := 0, content := some [7] })],
          busyValues := [] },
        w0) ∧
    (hasSeq E1
      { folder := "/c/",
        knownValues := [("#k", { loadedAt := 0, content := some [7] })],
        busyValues := [] } "k").1 = .alreadyCached :=
  ⟨rfl, rfl⟩

/-- C9: `CreateCache` returns a `nil` error for every folder path and
every directory-listing outcome; when the listing fails it attempts to
create the directory and still returns a usable cache with an empty
known-set. -/
theorem C9_createCache_never_errors (path : String)
    (listing : Except GoError (List (String × Bool))) :
    (CreateCache path listing).2.1 = none ∧
    (∀ e, listing = .error e →
      (CreateCache path listing).1.knownValues = [] ∧
      (CreateCache path listing).2.2 = true) := by
  refine ⟨rfl, ?_⟩
  rintro e rfl
  exact ⟨rfl, rfl⟩

/-- Witness for C9 at a concrete failing listing. -/
theorem C9_createCache_never_errors_witness :
    (CreateCache "/c/" (.error (.ioError "denied"))).2.1 = none ∧
    (CreateCache "/c/" (.error (.ioError "denied"))).1.knownValues = [] ∧
    (CreateCache "/c/" (.error (.ioError "denied"))).2.2 = true :=
  ⟨(C9_createCache_never_errors "/c/" (.error (.ioError "denied"))).1,
   ((C9_createCache_never_errors "/c/" (.error (.ioError "denied"))).2
     (.ioError "denied") rfl).1,
   ((C9_createCache_never_errors "/c/" (.error (.ioError "denied"))).2
     (.ioError "denied") rfl).2⟩

/-- C5: for every key and every ordered rule list whose regexes all
compile, the TTL chosen by the source loop is the TTL of the first
rule, in the caller-supplied order, whose regex matches the key, and
the default TTL when no rule matches (`firstMatchTTL` states this the
way the spec words it). -/
theorem C5_ttl_first_match_wins (compile : String → Option (String → Bool))
    (rules : List CacheRule) (dflt : Int) (key : String)
    (h : ∀ cr ∈ rules, (compile cr.regex).isSome) :
    ttlLoop compile rules dflt key =
      .ret (firstMatchTTL compile rules dflt key) := by
  induction rules with
  | nil => rfl
  | cons cr rest ih =>
    obtain ⟨m, hm⟩ := Option.isSome_iff_exists.mp (h cr (by simp))
    by_cases hmatch : m key
    · simp [ttlLoop, firstMatchTTL, hm, hmatch, List.find?_cons_of_pos]
    · have hrest := ih (fun cr' h' => h cr' (List.mem_cons_of_mem _ h'))
      simp only [ttlLoop, firstMatchTTL, hm, hmatch, if_false] at hrest ⊢
      rw [List.find?_cons_of_neg _ (by simp [hm, hmatch])]
      exact hrest

/-- Witness for C5 at the spec's example: rules
`[(a, ^/images/, 10s), (b, ^/images/thumb, 1h)]` and key
`/images/thumb/x.png` yield 10s, the first match. -/
theorem C5_ttl_first_match_wins_witness :
    (∀ cr ∈ exampleRules, (exampleCompile cr.regex).isSome) ∧
    ttlLoop exampleCompile exampleRules 999 "/images/thumb/x.png" =
      .ret 10 :=
  ⟨by decide,
   (C5_ttl_first_match_wins exampleCompile exampleRules 999
      "/images/thumb/x.png" (by decide)).trans (by decide)⟩

/-- C6: when the backing file exists and the rule scan selects `ttl`,
`checkCacheTTL` invokes the remote fetch and increments the too-old
counter exactly when `now` is after `mtime + ttl` (propagating a failed
fetch's error and otherwise succeeding), and when the entry is still
fresh it increments the ok counter and succeeds without fetching. -/
theorem C6_fetch_iff_expired (E : Ext) (cfg : Config) (w : World)
    (filePath cacheURL requestedURL : String) (fd : FileData) (ttl : Int)
    (hfile : alookup filePath w.files = some fd)
    (httl : ttlLoop E.compile cfg.cacheRules cfg.defaultCacheTTL cacheURL =
      .ret ttl) :
    (w.now > fd.mtime + ttl →
      (∀ msg, E.getRemote requestedURL = .error msg →
        checkCacheTTL E cfg w filePath cacheURL requestedURL =
          .ret (some (.fetchFailed msg), w.incr "CACHE_TOO_OLD", true)) ∧
      (∀ nc, E.getRemote requestedURL = .ok nc →
        checkCacheTTL E cfg w filePath cacheURL requestedURL =
          .ret (none, (w.incr "CACHE_TOO_OLD").writeFile filePath nc, true))) ∧
    (¬ w.now > fd.mtime + ttl →
      checkCacheTTL E cfg w filePath cacheURL requestedURL =
        .ret (none, w.incr "CACHE_OK", false)) := by
  unfold checkCacheTTL
  rw [hfile, httl]
  constructor
  · intro hexp
    constructor
    · intro msg hmsg
      simp only [hexp, if_true, hmsg]
    · intro nc hnc
      simp only [hexp, if_true, hnc]
  · intro hfresh
    simp only [hfresh, if_false]

/-- Witness for C6: a file written at time 0 with TTL 1000 observed at
time 2000 triggers the fetch; the failing remote's error is returned
with the too-old counter incremented. -/
theorem C6_fetch_iff_expired_witness :
    alookup "/c/#k" wFile.files = some { content := [5], mtime := 0 } ∧
    ttlLoop E0.compile cfg0.cacheRules cfg0.defaultCacheTTL "k" =
      .ret 1000 ∧
    wFile.now > (0 : Int) + 1000 ∧
    checkCacheTTL E0 cfg0 wFile "/c/#k" "k" "k" =
      .ret (some (.fetchFailed "no remote"), wFile.incr "CACHE_TOO_OLD",
        true) :=
  ⟨rfl, rfl, by decide,
   ((C6_fetch_iff_expired E0 cfg0 wFile "/c/#k" "k" "k"
        { content := [5], mtime := 0 } 1000 rfl rfl).1
      (by decide)).1 "no remote" rfl⟩

/-- Helper for C10: if every rule before `bad` compiles but does not
match, and `bad`'s regex does not compile, the TTL scan panics at
`bad`. -/
theorem ttlLoop_panics (compile : String → Option (String → Bool))
    (pre rest : List CacheRule) (bad : CacheRule) (dflt : Int)
    (key : String)
    (hpre : ∀ cr ∈ pre, ∃ m, compile cr.regex = some m ∧ m key = false)
    (hbad : compile bad.regex = none) :
    ttlLoop compile (pre ++ bad :: rest) dflt key =
      .panicked ("regexp: Compile failed on " ++ bad.regex) := by
  induction pre with
  | nil => simp [ttlLoop, hbad]
  | cons cr pre' ih =>
    obtain ⟨m, hm, hfalse⟩ := hpre cr (by simp)
    simp only [List.cons_append, ttlLoop, hm, hfalse, if_false]
    exact ih (fun cr' h' => hpre cr' (List.mem_cons_of_mem _ h'))

/-- C10: if a TTL rule reached during the rule scan has a syntactically
invalid regex, `checkCacheTTL` panics via `regexp.MustCompile` rather
than returning an error value, and `get` (which calls it after finding
the key known, on both the disk and the memory read path) panics the
same way. -/
theorem C10_invalid_regex_panics (E : Ext) (cfg : Config) (w : World)
    (pre rest : List CacheRule) (bad : CacheRule) (c : Cache)
    (kv : KnownValues) (fd : FileData) (requestedURL : String)
    (hrules : cfg.cacheRules = pre ++ bad :: rest)
    (hpre : ∀ cr ∈ pre, ∃ m, E.compile cr.regex = some m ∧
      m (removeSchemeFromURL requestedURL) = false)
    (hbad : E.compile bad.regex = none)
    (hknown : alookup (E.calcHash (removeSchemeFromURL requestedURL))
      c.knownValues = some kv)
    (hfile : alookup (c.folder ++ E.calcHash (removeSchemeFromURL requestedURL))
      w.files = some fd) :
    checkCacheTTL E cfg w
        (c.folder ++ E.calcHash (removeSchemeFromURL requestedURL))
        (removeSchemeFromURL requestedURL) requestedURL =
      .panicked ("regexp: Compile failed on " ++ bad.regex) ∧
    get E cfg c w requestedURL =
      .panicked ("regexp: Compile failed on " ++ bad.regex) := by
  have hloop := ttlLoop_panics E.compile pre rest bad cfg.defaultCacheTTL
    (removeSchemeFromURL requestedURL) hpre hbad
  have hcheck : checkCacheTTL E cfg w
      (c.folder ++ E.calcHash (removeSchemeFromURL requestedURL))
      (removeSchemeFromURL requestedURL) requestedURL =
      .panicked ("regexp: Compile failed on " ++ bad.regex) := by
    unfold checkCacheTTL
    rw [hfile, hrules, hloop]
  refine ⟨hcheck, ?_⟩
  simp only [get]
  rw [hknown]
  simp only [Option.getD_some, Option.isSome_some, eq_self_iff_true,
    not_true, false_and, if_false]
  cases hc : kv.content with
  | none => rw [hcheck]
  | some data => rw [hcheck]

/-- Witness for C10: a configuration whose first rule's regex is `(`
makes both `checkCacheTTL` and `get` panic on a known disk-tier key. -/
theorem C10_invalid_regex_panics_witness :
    cfgBad.cacheRules =
      [] ++ { name := "r", regex := "(", ttl := 5 } :: [] ∧
    E0.compile "(" = none ∧
    alookup (E0.calcHash (removeSchemeFromURL "k")) cKnown.knownValues =
      some KnownValues.zero ∧
    get E0 cfgBad cKnown wFile "k" =
      .panicked ("regexp: Compile failed on " ++ "(") :=
  ⟨rfl, rfl, rfl,
   (C10_invalid_regex_panics E0 cfgBad wFile []
      [] { name := "r", regex := "(", ttl := 5 } cKnown KnownValues.zero
      { content := [5], mtime := 0 } "k" rfl (by simp) rfl rfl rfl).2⟩

/-! ### Association-list lemmas for the coordinator proofs -/

theorem aerase_cons {α : Type} (p : String × α) (rest : List (String × α))
    (k : String) :
    aerase (p :: rest) k =
      if p.1 = k then aerase rest k else p :: aerase rest k := by
  by_cases hp : p.1 = k <;> simp [aerase, List.filter_cons, hp]

theorem alookup_aerase_self {α : Type} (l : List (String × α)) (k : String) :
    alookup k (aerase l k) = none := by
  induction l with
  | nil => rfl
  | cons p rest ih =>
    rw [aerase_cons]
    by_cases h : p.1 = k
    · simpa [h] using ih
    · simpa [alookup, h] using ih

theorem alookup_aerase_ne {α : Type} (l : List (String × α)) (k k' : String)
    (h : k' ≠ k) : alookup k' (aerase l k) = alookup k' l := by
  induction l with
  | nil => rfl
  | cons p rest ih =>
    rw [aerase_cons]
    by_cases hp : p.1 = k
    · simp [alookup, hp, Ne.symm h, ih]
    · by_cases hpk : p.1 = k'
      · simp [alookup, hp, hpk, h]
      · simp [alookup, hp, hpk, ih]

theorem filter_key_eq_nil_of_alookup_none {α : Type}
    (l : List (String × α)) (k : String) (h : alookup k l = none) :
    l.filter (fun p => p.1 = k) = [] := by
  induction l with
  | nil => rfl
  | cons p rest ih =>
    by_cases hp : p.1 = k
    · simp [alookup, hp] at h
    · simp [alookup, hp] at h
      simp [List.filter_cons, hp, ih h]

theorem filter_key_aerase_self {α : Type} (l : List (String × α))
    (k : String) : (aerase l k).filter (fun p => p.1 = k) = [] := by
  simp only [aerase, List.filter_filter]
  have : ∀ p : String × α, (decide (p.1 = k) && decide (p.1 ≠ k)) = false := by
    intro p
    by_cases hp : p.1 = k <;> simp [hp]
  simp [this]

theorem filter_key_aerase_le {α : Type} (l : List (String × α))
    (k k' : String) :
    ((aerase l k).filter (fun p => p.1 = k')).length ≤
      (l.filter (fun p => p.1 = k')).length :=
  ((List.filter_sublist l).filter _).length_le

/-! ### The C7 invariant proof -/

/-- Each coordinator step preserves the invariant. -/
theorem coordStep_inv {s s' : Coord} (hs : s.Inv) (h : CoordStep s s') :
    s'.Inv := by
  obtain ⟨hexcl, hcount⟩ := hs
  cases h with
  | acquire k hb hk =>
    constructor
    · intro k' hk'
      by_cases hkk : k = k'
      · exact hkk ▸ hk
      · exact hexcl k' (by simpa [alookup, hkk] using hk')
    · intro k'
      by_cases hkk : k = k'
      · subst hkk
        simp [Coord.markerCount, List.filter_cons,
          filter_key_eq_nil_of_alookup_none s.busy k hb]
      · simpa [Coord.markerCount, List.filter_cons, hkk] using hcount k'
  | reacquire k hk =>
    constructor
    · intro k' hk'
      by_cases hkk : k = k'
      · exact hkk ▸ hk
      · refine hexcl k' ?_
        have hk2 : alookup k' ((k, s.nextGen) :: aerase s.busy k) ≠ none := hk'
        have hk3 : alookup k' (aerase s.busy k) ≠ none := by
          simpa [alookup, hkk] using hk2
        rwa [alookup_aerase_ne s.busy k k' (fun hc => hkk hc.symm)] at hk3
    · intro k'
      by_cases hkk : k = k'
      · subst hkk
        simp [Coord.markerCount, aset, List.filter_cons,
          filter_key_aerase_self]
      · calc ((aset s.busy k s.nextGen).filter (fun p => p.1 = k')).length
            = ((aerase s.busy k).filter (fun p => p.1 = k')).length := by
              simp [aset, aerase, List.filter_cons, List.filter_filter,
                hkk, decide_not]
          _ ≤ (s.busy.filter (fun p => p.1 = k')).length :=
              filter_key_aerase_le s.busy k k'
          _ ≤ 1 := hcount k'
  | releaseStep k =>
    constructor
    · intro k' hk'
      by_cases hkk : k' = k
      · subst hkk
        exact absurd (alookup_aerase_self s.busy k') hk'
      · have hk2 : alookup k' (aerase s.busy k) ≠ none := hk'
        rw [alookup_aerase_ne s.busy k k' hkk] at hk2
        have hnot := hexcl k' hk2
        simp [List.mem_cons, hkk, hnot]
    · intro k'
      exact le_trans (filter_key_aerase_le s.busy k k') (hcount k')

/-- The invariant holds in every reachable coordinator state. -/
theorem coordReach_inv (ks : List String) (s : Coord)
    (h : CoordReach (Coord.init ks) s) : s.Inv := by
  induction h with
  | refl =>
    exact ⟨fun k hk => absurd rfl hk, fun k => Nat.le_of_lt Nat.one_pos⟩
  | tail _ hstep ih => exact coordStep_inv ih hstep

/-- C7: in every reachable cache state, an identifier has at most one
busy marker, a busy identifier is never simultaneously in the
known-set, and no step takes a busy identifier to a state where it is
neither busy nor known (`release` removes the marker and inserts the
known entry in the same critical section). -/
theorem C7_busy_known_mutually_exclusive (ks : List String) (s : Coord)
    (h : CoordReach (Coord.init ks) s) :
    (∀ k, alookup k s.busy ≠ none → k ∉ s.known) ∧
    (∀ k, s.markerCount k ≤ 1) ∧
    (∀ k s', alookup k s.busy ≠ none → CoordStep s s' →
      alookup k s'.busy ≠ none ∨ k ∈ s'.known) := by
  obtain ⟨hexcl, hcount⟩ := coordReach_inv ks s h
  refine ⟨hexcl, hcount, ?_⟩
  intro k s' hbusy hstep
  cases hstep with
  | acquire k0 hb hk =>
    left
    by_cases hkk : k0 = k
    · simp [alookup, hkk]
    · simpa [alookup, hkk] using hbusy
  | reacquire k0 hk =>
    left
    by_cases hkk : k0 = k
    · simp [aset, alookup, hkk]
    · show alookup k ((k0, s.nextGen) :: aerase s.busy k0) ≠ none
      have hrw : alookup k ((k0, s.nextGen) :: aerase s.busy k0) =
          alookup k (aerase s.busy k0) := by simp [alookup, hkk]
      rw [hrw, alookup_aerase_ne s.busy k0 k (fun hc => hkk hc.symm)]
      exact hbusy
  | releaseStep k0 =>
    by_cases hkk : k = k0
    · right
      simp [hkk]
    · left
      show alookup k (aerase s.busy k0) ≠ none
      rw [alookup_aerase_ne s.busy k0 k hkk]
      exact hbusy

/-- Witness for C7 at a concrete reachable state: acquire then release
identifier `b` starting from a cache knowing only `a`. -/
theorem C7_busy_known_mutually_exclusive_witness :
    CoordReach (Coord.init ["a"]) coordWit ∧
    coordWit.markerCount "b" ≤ 1 := by
  have hstep1 : CoordStep (Coord.init ["a"])
      { known := ["a"], busy := [("b", 0)], nextGen := 1 } :=
    CoordStep.acquire (Coord.init ["a"]) "b" rfl (by decide)
  have hstep2 : CoordStep
      { known := ["a"], busy := [("b", 0)], nextGen := 1 } coordWit :=
    CoordStep.releaseStep
      { known := ["a"], busy := [("b", 0)], nextGen := 1 } "b"
  have hreach : CoordReach (Coord.init ["a"]) coordWit :=
    Relation.ReflTransGen.tail (Relation.ReflTransGen.tail
      Relation.ReflTransGen.refl hstep1) hstep2
  exact ⟨hreach,
    (C7_busy_known_mutually_exclusive ["a"] coordWit hreach).2.1 "b"⟩

/-! ### The C8 single-flight invariant proof -/

/-- Each protocol step preserves the single-flight invariant. -/
theorem sfStep_inv {s s' : SF} (hs : s.Inv) (h : SFStep s s') : s'.Inv := by
  obtain ⟨hA, hB⟩ := hs
  cases h with
  | enterBusy i g hpc hb =>
    constructor
    · intro hk
      obtain ⟨hunl, hdisj⟩ := hA hk
      refine ⟨hunl, ?_⟩
      rcases hdisj with ⟨hbn, _⟩ | ⟨g0, hbg0, ⟨i0, hi0, huniq⟩, hmem⟩
      · rw [hbn] at hb
        exact Option.noConfusion hb
      · rw [hb] at hbg0
        have hgg := Option.some.inj hbg0
        subst hgg
        obtain ⟨hlen, -⟩ := List.getElem?_eq_some.mp hpc
        have hii0 : i ≠ i0 := by
          intro hcon
          rw [hcon] at hpc
          rw [hpc] at hi0
          exact PC.noConfusion (Option.some.inj hi0)
        refine Or.inr ⟨g, hb, ⟨i0, ?_, ?_⟩, ?_⟩
        · rw [List.getElem?_set_ne hii0]
          exact hi0
        · intro j g' hj
          by_cases hji : j = i
          · subst hji
            rw [List.getElem?_set_self hlen] at hj
            exact PC.noConfusion (Option.some.inj hj)
          · rw [List.getElem?_set_ne (fun hc => hji hc.symm)] at hj
            exact huniq j g' hj
        · intro pc hpc'
          rcases List.mem_or_eq_of_mem_set hpc' with hmem' | rfl
          · exact hmem pc hmem'
          · exact Or.inr (Or.inl rfl)
    · intro hk
      obtain ⟨hbn, -⟩ := hB hk
      rw [hbn] at hb
      exact Option.noConfusion hb
  | enterKnown i hpc hb hk =>
    constructor
    · intro hfk
      exact Bool.noConfusion (hk.symm.trans hfk)
    · intro _
      obtain ⟨hbn, hnp⟩ := hB hk
      refine ⟨hbn, ?_⟩
      intro pc hpc' g'
      rcases List.mem_or_eq_of_mem_set hpc' with hmem' | rfl
      · exact hnp pc hmem' g'
      · exact fun hc => PC.noConfusion hc
  | enterAcquire i hpc hb hk =>
    constructor
    · intro _
      obtain ⟨hunl, hdisj⟩ := hA hk
      refine ⟨hunl, Or.inr ?_⟩
      have hall : ∀ pc ∈ s.pcs, pc = PC.start := by
        rcases hdisj with ⟨-, hall⟩ | ⟨g0, hbg0, -, -⟩
        · exact hall
        · rw [hb] at hbg0
          exact Option.noConfusion hbg0
      obtain ⟨hlen, -⟩ := List.getElem?_eq_some.mp hpc
      refine ⟨s.nextGen, rfl, ⟨i, List.getElem?_set_self hlen, ?_⟩, ?_⟩
      · intro j g' hj
        by_cases hji : j = i
        · exact hji
        · rw [List.getElem?_set_ne (fun hc => hji hc.symm)] at hj
          have hmem' : PC.gotPermit g' ∈ s.pcs :=
            List.mem_iff_getElem?.mpr ⟨j, hj⟩
          exact absurd (hall _ hmem') (fun hc => PC.noConfusion hc)
      · intro pc hpc'
        rcases List.mem_or_eq_of_mem_set hpc' with hmem' | rfl
        · exact Or.inl (hall pc hmem')
        · exact Or.inr (Or.inr rfl)
    · intro hfk
      exact Bool.noConfusion (hk.symm.trans hfk)
  | wakeKnown i g hpc hu hk =>
    constructor
    · intro hfk
      exact Bool.noConfusion (hk.symm.trans hfk)
    · intro _
      obtain ⟨hbn, hnp⟩ := hB hk
      refine ⟨hbn, ?_⟩
      intro pc hpc' g'
      rcases List.mem_or_eq_of_mem_set hpc' with hmem' | rfl
      · exact hnp pc hmem' g'
      · exact fun hc => PC.noConfusion hc
  | wakeAcquire i g hpc hu hk =>
    obtain ⟨hunl, -⟩ := hA hk
    rw [hunl] at hu
    exact absurd hu (List.not_mem_nil g)
  | releaseStep i g hpc =>
    constructor
    · intro hfk
      exact Bool.noConfusion hfk
    · intro _
      refine ⟨rfl, ?_⟩
      intro pc hpc' g'
      obtain ⟨j, hj⟩ := List.mem_iff_getElem?.mp hpc'
      intro hc
      subst hc
      by_cases hji : j = i
      · subst hji
        obtain ⟨hlen, -⟩ := List.getElem?_eq_some.mp hpc
        rw [List.getElem?_set_self hlen] at hj
        exact PC.noConfusion (Option.some.inj hj)
      · rw [List.getElem?_set_ne (fun hc2 => hji hc2.symm)] at hj
        cases hsk : s.known with
        | true =>
          obtain ⟨-, hnp⟩ := hB hsk
          exact hnp _ (List.mem_iff_getElem?.mpr ⟨j, hj⟩) g' rfl
        | false =>
          obtain ⟨-, hdisj⟩ := hA hsk
          rcases hdisj with ⟨-, hall⟩ | ⟨g0, -, ⟨i0, -, huniq⟩, -⟩
          · exact PC.noConfusion
              (hall _ (List.mem_iff_getElem?.mpr ⟨j, hj⟩))
          · exact hji ((huniq j g' hj).trans (huniq i g hpc).symm)
  | unlockStep i g hpc =>
    constructor
    · intro hk
      obtain ⟨hunl, hdisj⟩ := hA hk
      have hmem' : PC.released g ∈ s.pcs :=
        List.mem_iff_getElem?.mpr ⟨i, hpc⟩
      rcases hdisj with ⟨-, hall⟩ | ⟨g0, -, -, hmem⟩
      · exact PC.noConfusion (hall _ hmem')
      · rcases hmem _ hmem' with hc | hc | hc <;> exact PC.noConfusion hc
    · intro hk
      obtain ⟨hbn, hnp⟩ := hB hk
      refine ⟨hbn, ?_⟩
      intro pc hpc' g'
      rcases List.mem_or_eq_of_mem_set hpc' with hmem' | rfl
      · exact hnp pc hmem' g'
      · exact fun hc => PC.noConfusion hc

/-- The invariant holds in every reachable protocol state. -/
theorem sfReach_inv (n : Nat) (s : SF) (h : SFReach (SF.init n) s) :
    s.Inv := by
  induction h with
  | refl =>
    exact ⟨fun _ =>
        ⟨rfl, Or.inl ⟨rfl, fun pc hpc => List.eq_of_mem_replicate hpc⟩⟩,
      fun hk => Bool.noConfusion hk⟩
  | tail _ hstep ih => exact sfStep_inv ih hstep

/-- C8: for `n` concurrent callers of `has` on an identifier that is
neither known nor busy: at most one caller ever holds the fill permit
at a time; before the filler releases (`known` still false), once every
caller has entered `has`, exactly one caller holds the permit and every
other caller is blocked on the registered marker, which is still
locked; and after the filler releases, any caller stepping out of the
entry of `has` or out of its wait observes the item as known. -/
theorem C8_single_flight (n : Nat) (s : SF)
    (h : SFReach (SF.init n) s) :
    (∀ (i j gi gj : Nat), s.pcs[i]? = some (PC.gotPermit gi) →
      s.pcs[j]? = some (PC.gotPermit gj) → i = j) ∧
    (s.known = false → (∀ pc ∈ s.pcs, pc ≠ PC.start) → s.pcs ≠ [] →
      ∃ g : Nat, s.busy = some g ∧ g ∉ s.unlocked ∧
        (∃ i : Nat, s.pcs[i]? = some (PC.gotPermit g) ∧
          ∀ (j g' : Nat), s.pcs[j]? = some (PC.gotPermit g') → j = i) ∧
        ∀ pc ∈ s.pcs, pc = PC.waiting g ∨ pc = PC.gotPermit g) ∧
    (s.known = true → ∀ (s' : SF) (i : Nat), SFStep s s' →
      (s.pcs[i]? = some PC.start ∨
        (∃ g : Nat, s.pcs[i]? = some (PC.waiting g))) →
      s'.pcs[i]? ≠ s.pcs[i]? → s'.pcs[i]? = some PC.sawKnown) := by
  obtain ⟨hA, hB⟩ := sfReach_inv n s h
  refine ⟨?_, ?_, ?_⟩
  · intro i j gi gj hi hj
    cases hsk : s.known with
    | true =>
      obtain ⟨-, hnp⟩ := hB hsk
      exact absurd rfl (hnp _ (List.mem_iff_getElem?.mpr ⟨i, hi⟩) gi)
    | false =>
      obtain ⟨-, hdisj⟩ := hA hsk
      rcases hdisj with ⟨-, hall⟩ | ⟨g0, -, ⟨i0, -, huniq⟩, -⟩
      · exact PC.noConfusion (hall _ (List.mem_iff_getElem?.mpr ⟨i, hi⟩))
      · exact (huniq i gi hi).trans (huniq j gj hj).symm
  · intro hsk hnstart hne
    obtain ⟨hunl, hdisj⟩ := hA hsk
    rcases hdisj with ⟨-, hall⟩ | ⟨g0, hbg0, hhold, hmem⟩
    · obtain ⟨pc, hpc⟩ := List.exists_mem_of_ne_nil s.pcs hne
      exact absurd (hall pc hpc) (hnstart pc hpc)
    · refine ⟨g0, hbg0, ?_, hhold, ?_⟩
      · rw [hunl]
        exact List.not_mem_nil g0
      · intro pc hpc
        rcases hmem pc hpc with hc | hc | hc
        · exact absurd hc (hnstart pc hpc)
        · exact Or.inl hc
        · exact Or.inr hc
  · intro hsk s' i hstep hstart hchange
    obtain ⟨hbn, hnp⟩ := hB hsk
    cases hstep with
    | enterBusy i0 g0 hpc0 hb0 =>
      rw [hbn] at hb0
      exact Option.noConfusion hb0
    | enterKnown i0 hpc0 hb0 hk0 =>
      by_cases hii : i = i0
      · subst hii
        obtain ⟨hlen, -⟩ := List.getElem?_eq_some.mp hpc0
        exact List.getElem?_set_self hlen
      · exact absurd (List.getElem?_set_ne (fun hc => hii hc.symm)) hchange
    | enterAcquire i0 hpc0 hb0 hk0 =>
      exact Bool.noConfusion (hsk.symm.trans hk0)
    | wakeKnown i0 g0 hpc0 hu0 hk0 =>
      by_cases hii : i = i0
      · subst hii
        obtain ⟨hlen, -⟩ := List.getElem?_eq_some.mp hpc0
        exact List.getElem?_set_self hlen
      · exact absurd (List.getElem?_set_ne (fun hc => hii hc.symm)) hchange
    | wakeAcquire i0 g0 hpc0 hu0 hk0 =>
      exact Bool.noConfusion (hsk.symm.trans hk0)
    | releaseStep i0 g0 hpc0 =>
      exact absurd rfl (hnp _ (List.mem_iff_getElem?.mpr ⟨i0, hpc0⟩) g0)
    | unlockStep i0 g0 hpc0 =>
      by_cases hii : i = i0
      · subst hii
        rw [hpc0] at hstart
        rcases hstart with hc | ⟨g', hc⟩ <;>
          exact PC.noConfusion (Option.some.inj hc)
      · exact absurd (List.getElem?_set_ne (fun hc => hii hc.symm)) hchange

/-- Witness for C8 at a concrete two-caller execution: caller 0
acquires the permit, caller 1 then blocks; the theorem yields the
registered locked marker, the unique holder, and the waiter states. -/
theorem C8_single_flight_witness :
    SFReach (SF.init 2) sfWit ∧
    sfWit.known = false ∧
    (∃ g : Nat, sfWit.busy = some g ∧ g ∉ sfWit.unlocked ∧
      (∃ i : Nat, sfWit.pcs[i]? = some (PC.gotPermit g) ∧
        ∀ (j g' : Nat), sfWit.pcs[j]? = some (PC.gotPermit g') → j = i) ∧
      ∀ pc ∈ sfWit.pcs, pc = PC.waiting g ∨ pc = PC.gotPermit g) := by
  have hstep1 : SFStep (SF.init 2) sfMid :=
    SFStep.enterAcquire (SF.init 2) 0 rfl rfl rfl
  have hstep2 : SFStep sfMid sfWit :=
    SFStep.enterBusy sfMid 1 0 rfl rfl
  have hreach : SFReach (SF.init 2) sfWit :=
    Relation.ReflTransGen.tail (Relation.ReflTransGen.tail
      Relation.ReflTransGen.refl hstep1) hstep2
  exact ⟨hreach, rfl,
    (C8_single_flight 2 sfWit hreach).2.1 rfl (by decide) (by decide)⟩

end TinyProxy
